import Mathlib

/-!
Shallow embedding of the core image pipeline of `ppscan.py` (palmprint
identification).  Images are row-major grids of 8-bit samples, embedded as
`List (List Nat)`.  Python float arithmetic on the small exact quantities
used by the pipeline is embedded as exact rational arithmetic (`Rat`); the
places where the float/rational abstraction matters are noted at the
definitions concerned.  Fallible Python code is embedded in `Except PyErr`.
-/

namespace Ppscan

/-- A grayscale or binary image: a list of rows of pixel values. -/
abbrev Img := List (List Nat)

/-- An integer pixel coordinate, in the `(x, y)` order used by `ppscan.py`
(`p[0]` is the column, `p[1]` the row). -/
abbrev Pt := Int × Int

/-- Errors that the embedded code can raise.  `zeroDivisionError`,
`valueError` and `indexError` are the interpreter or library built-ins
(`ZeroDivisionError` from `a / b` with `b == 0`, `ValueError` from
`scipy.spatial.distance.hamming` on arrays of different length,
`IndexError` from indexing an empty list); the `exception*` constructors
are the `raise Exception(...)` statements written in `ppscan.py` itself:
`exceptionTooFewValleys` is the message about expecting at least 2 valleys
(line 597), `exceptionNoValleys` the message that no valleys were found
(line 603), `exceptionNoTangent` the message that no tangent was found
(line 620). -/
inductive PyErr where
  | zeroDivisionError : PyErr
  | valueError : PyErr
  | indexError : PyErr
  | exceptionTooFewValleys : PyErr
  | exceptionNoValleys : PyErr
  | exceptionNoTangent : PyErr
deriving DecidableEq, Repr

/-- True exactly on the constructors that correspond to a
`raise Exception(...)` written in `ppscan.py` (the extraction failures of
the spec), false on the interpreter built-ins. -/
def PyErr.raisedByPpscan : PyErr → Bool
  | .exceptionTooFewValleys => true
  | .exceptionNoValleys => true
  | .exceptionNoTangent => true
  | _ => false

/-- True when an embedded computation terminated without raising. -/
def isOkE : Except PyErr β → Bool
  | .ok _ => true
  | .error _ => false

/-- Equality of embedded results is decidable componentwise. -/
instance [DecidableEq ε] [DecidableEq α] : DecidableEq (Except ε α)
  | .ok a, .ok b =>
    if h : a = b then .isTrue (by rw [h]) else .isFalse (by simp [h])
  | .ok _, .error _ => .isFalse (by simp)
  | .error _, .ok _ => .isFalse (by simp)
  | .error a, .error b =>
    if h : a = b then .isTrue (by rw [h]) else .isFalse (by simp [h])

/-- Python list slicing `l[a:b]`: negative bounds count from the end, and
both bounds are clamped into `[0, len l]`. -/
def pyslice (a b : Int) (l : List α) : List α :=
  let n : Int := l.length
  let lo := if a < 0 then max (n + a) 0 else min a n
  let hi := if b < 0 then max (n + b) 0 else min b n
  (l.take hi.toNat).drop lo.toNat

/-- Python list indexing `l[i]` for `Int` lists: a negative index counts
from the end.  Total with default `0`; every use in this file indexes
in range, as the corresponding Python code does. -/
def pygetZ (l : List Int) (i : Int) : Int :=
  if i < 0 then l.getD ((l.length : Int) + i).toNat 0 else l.getD i.toNat 0

/-- Embedded `np.round` to an integer: round half to even (bankers rounding), the
rounding used by numpy. -/
def pyround (q : Rat) : Int :=
  let f := q.floor
  let frac := q - (f : Rat)
  if frac < 1/2 then f
  else if 1/2 < frac then f + 1
  else if f % 2 = 0 then f else f + 1

/-- Pixel read `img[y, x]` (row `y`, column `x`), default `0`.  All reads
performed by the embedded code are in bounds and at non-negative indices,
as guaranteed by the border checks of the source. -/
def getPix (img : Img) (y x : Int) : Nat :=
  (img.getD y.toNat []).getD x.toNat 0

/-- Number of rows of an image (`img.shape[0]`). -/
def shape0 (img : Img) : Nat := img.length

/-- Number of columns of an image (`img.shape[1]`); the embedded images are
rectangular, so the first row length is the width. -/
def shape1 (img : Img) : Nat := (img.headD []).length

/-- Row-major flattening (`ndarray.flatten`). -/
def flat (img : Img) : List Nat := img.flatten

-- Constants of `ppscan.py` used by the embedded core.

/-- Constant `THRESH_FACTOR = 0.5`. -/
def THRESH_FACTOR : Rat := 1/2

/-- Constant `THRESH_SUBIMG = 150.0`. -/
def THRESH_SUBIMG : Rat := 150

/-- Constant `THRESH_CON = 15`. -/
def THRESH_CON : Nat := 15

/-- Constant `GAMMA = 10`. -/
def GAMMA : Int := 10

/-- Constant `G_L = 23 / 32`. -/
def G_L : Rat := 23/32

/-- Constant `G_U = 31 / 32`. -/
def G_U : Rat := 31/32

/-- Constant `GABOR_THRESHOLD = 150`. -/
def GABOR_THRESHOLD : Nat := 150

/-- Values `np.round(np.cos(np.deg2rad a), 2)` for the angles `a` that
`neighbourhood_curvature` visits when called with `n = 32` (its only call
sites pass `n = 32`, giving `stepsize = int(360/32) = 11` and the angles
`0, 11, ..., 88`).  The values are the cosines rounded to two decimals,
exactly as numpy produces them. -/
def cosR2 : Nat → Rat
  | 0 => 1
  | 11 => 98/100
  | 22 => 93/100
  | 33 => 84/100
  | 44 => 72/100
  | 55 => 57/100
  | 66 => 41/100
  | 77 => 22/100
  | 88 => 3/100
  | _ => 0

/-- Values `np.round(np.sin(np.deg2rad a), 2)` for the same angles as `cosR2`. -/
def sinR2 : Nat → Rat
  | 0 => 0
  | 11 => 19/100
  | 22 => 37/100
  | 33 => 54/100
  | 44 => 69/100
  | 55 => 82/100
  | 66 => 91/100
  | 77 => 97/100
  | 88 => 1
  | _ => 0

/-- The angle list `range(0, 90, stepsize)` with `stepsize = int(360 / n)`
(Python `int` truncation of the exact quotient). -/
def ncAngles (n : Int) : List Nat :=
  let step := (360 / n).toNat
  if step = 0 then [] else (List.range ((90 + step - 1) / step)).map (· * step)

/-- The border test of `neighbourhood_curvature` (lines 525-533 of
`ppscan.py`): points at `x = 0` or `y = 0`, or whose `r`-neighbourhood
would leave the image, are excluded. -/
def ncOnBorder (p : Pt) (img : Img) (r : Int) : Bool :=
  p.1 = 0 || p.2 = 0 ||
    (shape1 img : Int) ≤ p.1 + r || p.1 - r < 0 ||
    (shape0 img : Int) ≤ p.2 + r || p.2 - r < 0

/-- The list `neighvals` built by the sampling loop of
`neighbourhood_curvature`: for each angle, four mirrored samples
`img[y_p, x_p], img[y_n, x_p], img[y_n, x_n], img[y_p, x_n]`. -/
def ncNeighvals (p : Pt) (img : Img) (n r : Int) : List Nat :=
  (ncAngles n).foldr (fun a acc =>
    let dy := cosR2 a
    let dx := sinR2 a
    let yp := pyround ((p.2 : Rat) - r * dy)
    let yn := pyround ((p.2 : Rat) + r * dy)
    let xp := pyround ((p.1 : Rat) + r * dx)
    let xn := pyround ((p.1 : Rat) - r * dx)
    getPix img yp xp :: getPix img yn xp :: getPix img yn xn :: getPix img yp xn :: acc) []

/-- The value computed by the non-border branch of
`neighbourhood_curvature`: `(sum(neighvals) / inside) / n`. -/
def ncInner (p : Pt) (img : Img) (n r : Int) (inside : Nat) : Rat :=
  (((ncNeighvals p img n r).sum : Rat) / (inside : Rat)) / (n : Rat)

/-- Function `neighbourhood_curvature(p, img, n, r, inside)` (lines 509-551): `0.0`
on the border branch, otherwise the sampled fraction `ncInner`. -/
def neighbourhood_curvature (p : Pt) (img : Img) (n r : Int) (inside : Nat) : Rat :=
  if ncOnBorder p img r then 0 else ncInner p img n r inside

/-- The guard of the spec, written from its words: a point lies within `r`
pixels of an image border of a `w × h` image when its distance to the
nearest border is strictly less than `r` (the reading under which the
guard coincides with the source for every positive radius). -/
def withinBorderOf (w h : Nat) (p : Pt) (r : Int) : Prop :=
  p.1 < r ∨ p.2 < r ∨ (w : Int) ≤ p.1 + r ∨ (h : Int) ≤ p.2 + r

instance (w h : Nat) (p : Pt) (r : Int) : Decidable (withinBorderOf w h p r) := by
  unfold withinBorderOf; infer_instance

/-- The square sub-image `img[c[1]-GAMMA : c[1]+GAMMA, c[0]-GAMMA : c[0]+GAMMA]`
cut out by `find_valleys` (line 570), with Python slice semantics. -/
def fvSubimg (img : Img) (c : Pt) : Img :=
  (pyslice (c.2 - GAMMA) (c.2 + GAMMA) img).map (pyslice (c.1 - GAMMA) (c.1 + GAMMA))

/-- Test `subimg.mean() >= THRESH_SUBIMG` for the sub-image: the mean of all its
entries; an empty selection gives `nan` in numpy, and `nan >= 150.0` is
false, embedded here as the explicit emptiness test. -/
def fvMeanOk (sub : Img) : Bool :=
  let cnt := (sub.map List.length).sum
  cnt ≠ 0 && decide (THRESH_SUBIMG ≤ ((flat sub).sum : Rat) / (cnt : Rat))

/-- The qualification test of the `find_valleys` loop (lines 571-575):
`len(subimg) > 0 and G_L <= neighbourhood_curvature(c, img, 32, GAMMA) <= G_U
and subimg.mean() >= THRESH_SUBIMG`. -/
def fvQual (img : Img) (c : Pt) : Bool :=
  let sub := fvSubimg img c
  0 < sub.length &&
    (let v := neighbourhood_curvature c img 32 GAMMA 255
     decide (G_L ≤ v) && decide (v ≤ G_U)) &&
    fvMeanOk sub

/-- Replace the last group of the valley list by itself with `c` appended
(the Python `valleys[idx].append(c)` with `idx = len(valleys) - 1`). -/
def fvAppendLast (vs : List (List Pt)) (c : Pt) : List (List Pt) :=
  vs.dropLast ++ [vs.getLastD [] ++ [c]]

/-- The loop body of `find_valleys` (lines 568-583), walking the contour
with the enumeration index `i`, the index `last` of the last qualifying
point, and the accumulated valley groups.  A qualifying point within
`THRESH_CON` of the previous one is appended to `valleys[idx]`; before any
group exists this is `[][-1]`, which raises `IndexError`. -/
def fvGo (img : Img) : List Pt → Nat → Nat → List (List Pt) →
    Except PyErr (List (List Pt))
  | [], _, _, acc => .ok acc
  | c :: cs, i, last, acc =>
      if fvQual img c then
        if THRESH_CON < i - last then fvGo img cs (i + 1) i (acc ++ [[c]])
        else if acc.isEmpty then .error .indexError
        else fvGo img cs (i + 1) i (fvAppendLast acc c)
      else fvGo img cs (i + 1) last acc

/-- Function `find_valleys(img, contour)` (lines 554-585). -/
def find_valleys (img : Img) (contour : List Pt) : Except PyErr (List (List Pt)) :=
  fvGo img contour 0 0 []

/-- Index of the first contour point that passes the qualification test of
`find_valleys`, if any. -/
def firstQualIdx (img : Img) : List Pt → Option Nat
  | [] => none
  | c :: cs => if fvQual img c then some 0 else (firstQualIdx img cs).map (· + 1)

/-- The angle computation of `transform_to_roi` (lines 636-638): the value
`a / b` that is fed to `np.arctan`, with `a = p_max[0] - p_min[0]` and
`b = p_min[1] - p_max[1]`.  The keypoints are Python `int` tuples, so a
zero `b` makes the bare division raise `ZeroDivisionError`; otherwise the
exact quotient is returned.  The subsequent `arctan`/rotation/crop of the
function is not needed by any claim and is not modelled. -/
def transform_to_roi_angle (p_min p_max : Pt) : Except PyErr Rat :=
  let a : Int := p_max.1 - p_min.1
  let b : Int := p_min.2 - p_max.2
  if b = 0 then .error .zeroDivisionError else .ok ((a : Rat) / (b : Rat))

/-- One-dimensional linear interpolation `np.interp(t, range(n), xs)` for a
sample position `t` inside `[0, n-1]`, with clamping at the ends. -/
def npInterp1 (xs : List Rat) (t : Rat) : Rat :=
  let n := xs.length
  if t ≤ 0 then xs.headD 0
  else if ((n : Rat) - 1) ≤ t then xs.getLastD 0
  else
    let j := t.floor.toNat
    let a := xs.getD j 0
    let b := xs.getD (j + 1) 0
    a + (t - (j : Rat)) * (b - a)

/-- Function `interpol2d(points, steps)` (lines 422-435): resample the polyline to
`steps` points at the positions `linspace(0, len(points)-1, steps)`.
The float sample positions and interpolated values are embedded as exact
rationals. -/
def interpol2d (points : List (Rat × Rat)) (steps : Nat) : List (Rat × Rat) :=
  let xs := points.map Prod.fst
  let ys := points.map Prod.snd
  let last : Rat := (points.length : Rat) - 1
  (List.range steps).map (fun k =>
    let t := last * (k : Rat) / ((steps : Rat) - 1)
    (npInterp1 xs t, npInterp1 ys t))

/-- The tangency test of `find_tangent_points` (lines 455-466): every point
`p` of both curves must satisfy
`p_1.x * ((p.y - p_2.y) / (p_1.y - p_2.y)) + p_2.x * ((p.y - p_1.y) / (p_2.y - p_1.y)) >= p.x`.
Rationals stand in for the float coordinates; a zero denominator, which in
numpy float arithmetic yields `inf`/`nan` terms whose comparison is never
satisfied at `p = p_1` itself, is embedded with the rational convention
`q / 0 = 0`, which likewise falsifies the test at `p = p_1` for the
positive coordinates the program works on. -/
def ftpHolds (vs : List (Rat × Rat)) (p1 p2 : Rat × Rat) : Bool :=
  vs.all (fun p =>
    decide (p.1 ≤ p1.1 * ((p.2 - p2.2) / (p1.2 - p2.2)) +
      p2.1 * ((p.2 - p1.2) / (p2.2 - p1.2))))

/-- Function `find_tangent_points(v_1, v_2)` (lines 438-472): the first pair
`(p_1, p_2)` in nested loop order whose line passes the tangency test, with
both points rounded to integer pixels; `none` embeds the `None, None`
return. -/
def find_tangent_points (v1 v2 : List (Rat × Rat)) : Option (Pt × Pt) :=
  v1.findSome? (fun p1 =>
    (v2.find? (fun p2 => ftpHolds (v1 ++ v2) p1 p2)).map
      (fun p2 => ((pyround p1.1, pyround p1.2), (pyround p2.1, pyround p2.2))))

/-- Stable ascending insertion used by `sortByHeadY`: a new element goes
after all existing elements with a key less than or equal to its own, as in
the stable Python `list.sort`. -/
def insertByHeadY (a : List Pt) : List (List Pt) → List (List Pt)
  | [] => [a]
  | b :: bs =>
      if (b.headD (0, 0)).2 ≤ (a.headD (0, 0)).2 then b :: insertByHeadY a bs
      else a :: b :: bs

/-- Statement `valleys.sort(key=lambda v: v[0][1])` (line 606): stable ascending sort
by the `y`-coordinate of the first point. -/
def sortByHeadY (vs : List (List Pt)) : List (List Pt) :=
  vs.foldl (fun acc v => insertByHeadY v acc) []

/-- The tail of `find_keypoints` after its two arity checks (lines 605-622):
sort the remaining valleys, interpolate each to 10 points, take the first
and last curve, and search the common tangent; a missing tangent raises the
tangent exception. -/
def fkTangentStage (vs : List (List Pt)) : Except PyErr (Pt × Pt) :=
  let sorted := sortByHeadY vs
  let interp := sorted.map (fun v => interpol2d (v.map (fun p => ((p.1 : Rat), (p.2 : Rat)))) 10)
  let v1 := interp.headD []
  let v2 := interp.getLastD []
  match find_tangent_points v1 v2 with
  | some kps => .ok kps
  | none => .error .exceptionNoTangent

/-- Function `find_keypoints(valleys)` (lines 588-622): raise if fewer than 2
valleys arrive, drop single-point valleys, raise if none remain, then run
the tangent search. -/
def find_keypoints (valleys : List (List Pt)) : Except PyErr (Pt × Pt) :=
  if valleys.length < 2 then .error .exceptionTooFewValleys
  else
    let vs := valleys.filter (fun v => 1 < v.length)
    if vs.length = 0 then .error .exceptionNoValleys
    else fkTangentStage vs

/-- OpenCV `BORDER_REFLECT_101` index reflection, for images at least 4
pixels wide/high and offsets of at most 3 (the only uses here): `-i`
reflects to `i`, `n + i` to `n - i - 2`. -/
def reflect101 (n : Nat) (i : Int) : Nat :=
  if i < 0 then (-i).toNat else if (n : Int) ≤ i then (2 * n - 2) - i.toNat else i.toNat

/-- The 7-tap Gaussian kernel that `cv.GaussianBlur(img, (7, 7), 0)` uses
for 8-bit input: OpenCV computes sigma from the kernel size and takes the
fixed small-kernel coefficients `[4, 14, 28, 36, 28, 14, 4] / 128`. -/
def gauss7 : List Nat := [4, 14, 28, 36, 28, 14, 4]

/-- One output pixel of the separable 7 x 7 Gaussian: the exact integer
convolution with `gauss7 ⊗ gauss7` (total weight `128 * 128 = 16384`)
under reflected borders, rounded half-up as the OpenCV fixed-point 8-bit
pipeline does. -/
def gaussPix (img : Img) (y x : Nat) : Nat :=
  let h := shape0 img
  let w := shape1 img
  let s := ((List.range 7).map (fun i =>
    ((List.range 7).map (fun j =>
      gauss7.getD i 0 * gauss7.getD j 0 *
        getPix img (reflect101 h ((y : Int) + i - 3)) (reflect101 w ((x : Int) + j - 3)))).sum)).sum
  (s + 8192) / 16384

/-- Call `cv.GaussianBlur(img, (7, 7), 0)` on an 8-bit image (line 663),
modelled from the OpenCV semantics: separable small-kernel Gaussian with
`BORDER_REFLECT_101` and exact fixed-point rounding. -/
def gaussianBlur7 (img : Img) : Img :=
  (List.range (shape0 img)).map (fun y =>
    (List.range (shape1 img)).map (fun x => gaussPix img y x))

/-- The mean of all pixels of an image (`ndarray.mean()`), as an exact
rational; empty images are not used by the claims. -/
def meanQ (img : Img) : Rat := ((flat img).sum : Rat) / ((flat img).length : Rat)

/-- The integer threshold that `cv.threshold(blurred, THRESH_FACTOR * img.mean(),
255, THRESH_BINARY)` applies on 8-bit data (lines 664-666): OpenCV floors
the float threshold, and the source computes it from the mean of the
ORIGINAL image `img`, not of the blurred one. -/
def ithresh (img : Img) : Nat := (THRESH_FACTOR * meanQ img).floor.toNat

/-- The binarization step of `extract_roi` (lines 663-666): blur, then
`255` where the blurred pixel exceeds the threshold, else `0`. -/
def extract_roi_binarize (img : Img) : Img :=
  (gaussianBlur7 img).map (fun row => row.map (fun v => if ithresh img < v then 255 else 0))

/-- The binarizer as the spec words it (threshold at `THRESH_FACTOR` times
the mean of the BLURRED image), written only to be compared with the
source embedding `extract_roi_binarize`. -/
def binarizeBlurredMean (img : Img) : Img :=
  let blurred := gaussianBlur7 img
  let t := (THRESH_FACTOR * meanQ blurred).floor.toNat
  blurred.map (fun row => row.map (fun v => if t < v then 255 else 0))

/-- The merge-and-threshold body of `apply_gabor_filters` (lines 745-767).
The `cv.filter2D` responses of the Gabor bank are outside the repository;
they enter here as the abstract list `responses` of same-shaped 8-bit
images.  The merged image starts at 255, is the pointwise minimum of the
responses, and then pixels strictly above `GABOR_THRESHOLD` become 255 and
pixels strictly below become 0 — a pixel exactly equal to the threshold is
left unchanged by both masked assignments. -/
def apply_gabor_filters (img : Img) (responses : List Img) : Img :=
  let start : Img := img.map (fun row => row.map (fun _ => 255))
  let merged := responses.foldl
    (fun acc f => List.zipWith (fun r fr => List.zipWith min r fr) acc f) start
  merged.map (fun row => row.map (fun v =>
    if GABOR_THRESHOLD < v then 255 else if v < GABOR_THRESHOLD then 0 else v))

/-- Function `img_to_binary` (lines 770-782) on one pixel: the flattened 8-bit value
0 is first overwritten with `True` (1), then every value above 1 with
`False` (0); a value of exactly 1 is left as is. -/
def toBin (v : Nat) : Nat := if v = 0 then 1 else if 1 < v then 0 else v

/-- Number of positions at which two equal-length vectors differ. -/
def countDiff (u v : List Nat) : Nat :=
  (List.zipWith (fun a b => if a = b then 0 else 1) u v).sum

/-- Library call `scipy.spatial.distance.hamming`: the fraction of differing positions. -/
def diffFrac (u v : List Nat) : Rat := (countDiff u v : Rat) / (u.length : Rat)

/-- Function `calculate_hamming(img_to_match, img_template)` (lines 823-844): the
active path flattens both images through `img_to_binary` and calls the
scipy Hamming distance, which raises `ValueError` when the lengths differ
and otherwise returns the differing fraction.  No binary-validation of the
inputs happens on this path (the masked variant that validates is
commented out in the source). -/
def calculate_hamming (a b : Img) : Except PyErr Rat :=
  let u := (flat a).map toBin
  let v := (flat b).map toBin
  if u.length = v.length then .ok (diffFrac u v) else .error .valueError

/-- The spec notion of a binary-valued bit vector image (values 0/1), used
by the validation check of the masked Hamming variant (`max(img) == 1`
style); written from the spec words for comparison. -/
def isBinary01 (img : Img) : Bool := (flat img).all (fun v => v = 0 || v = 1)

/-- Call `cv.warpAffine(img, [[1,0,tx],[0,1,ty]], (img.shape[0], img.shape[1]))`
as called by `translate_image` (lines 928-930): a pure pixel translation
with zero border.  OpenCV `dsize` is `(width, height)`, and the source
passes `(rows, cols)`, so the output has `cols` rows and `rows` columns
(the transposed shape — harmless for the square ROIs the program uses, and
embedded faithfully). -/
def warpTranslate (img : Img) (tx ty : Int) : Img :=
  let h := shape0 img
  let w := shape1 img
  (List.range w).map (fun y =>
    (List.range h).map (fun x =>
      let sy := (y : Int) - ty
      let sx := (x : Int) - tx
      if 0 ≤ sy ∧ sy < (h : Int) ∧ 0 ≤ sx ∧ sx < (w : Int) then getPix img sy sx else 0))

/-- The 2-pixel inset crop `img[2:-2, 2:-2]` used by `translate_image`. -/
def crop2 (img : Img) : Img := (pyslice 2 (-2) img).map (pyslice 2 (-2))

/-- Function `translate_image(img_to_match, img_template, trans_matrix)` (lines
918-940): shift the query, compare the 2-pixel-inset crops, and absorb any
comparison error into the worst-case distance 1.0. -/
def translate_image (q t : Img) (sh : Int × Int) : Rat :=
  match calculate_hamming (crop2 (warpTranslate q sh.1 sh.2)) (crop2 t) with
  | .ok v => v
  | .error _ => 1

/-- The list `trans_x` of `matching` (lines 860-877). -/
def trans_x : List Int := [-1, 0, 1, 1, 1, 0, -1, -1, -2, 0, 2, 2, 2, 0, -2, -2]

/-- The list `trans_y` of `matching` (lines 878-895). -/
def trans_y : List Int := [-1, -1, -1, 0, 1, 1, 1, 0, -2, -2, -2, 0, 2, 2, 2, 0]

/-- The translation vectors the `matching` loop actually builds (lines
899-900): the loop runs `for trans in trans_x` — over the VALUES of
`trans_x` — and then indexes `trans_x[trans]`, `trans_y[trans]` with those
values (Python negative indexing included). -/
def matchingTranslations : List (Int × Int) :=
  trans_x.map (fun t => (pygetZ trans_x t, pygetZ trans_y t))

/-- Python `min` over a non-empty float list: left fold of the binary
minimum over the first element. -/
def pymin : List Rat → Rat
  | [] => 0
  | x :: xs => xs.foldl min x

/-- Function `matching(img_to_match, img_template)` (lines 847-915): the per-shift
distances via `translate_image`, then the unshifted `calculate_hamming`
call — which is outside any `try` and propagates its error — and finally
the minimum of all collected distances (the empty-list guard of the source
is kept although the list always has 17 entries). -/
def matching (q t : Img) : Except PyErr Rat :=
  let hds := matchingTranslations.map (fun sh => translate_image q t sh)
  match calculate_hamming q t with
  | .error e => .error e
  | .ok base =>
      let all := hds ++ [base]
      .ok (if all.length = 0 then 1 else pymin all)

-- Concrete pixel data used by the closed theorems below.

/-- A 31 x 31 image whose pixels are all 255 (entirely inside). -/
def img31 : Img := List.replicate 31 (List.replicate 31 255)

/-- A 10 x 10 image whose pixels are all 255. -/
def img10 : Img := List.replicate 10 (List.replicate 10 255)

/-- A 5 x 5 image of zeros. -/
def img5z : Img := List.replicate 5 (List.replicate 5 0)

/-- An 8 x 12 grayscale image: a bright left edge column next to a dark gap
and a mid-gray plateau.  Its mean (346/12 per row) and the mean of its
Gaussian blur (255/12 per row) are far enough apart that the two candidate
thresholds disagree on several blurred pixels. -/
def imgC4 : Img := List.replicate 8 [255, 0, 0, 0, 0, 13, 13, 13, 13, 13, 13, 13]

end Ppscan

namespace Ppscan

-- Helper lemmas shared by the claim theorems.

/-- Projection `getD` with default 0 commutes with mapping a zero-preserving pixel
function over a row. -/
theorem getD_map_zero (g : Nat → Nat) (hg : g 0 = 0) (l : List Nat) (j : Nat) :
    (l.map g).getD j 0 = g (l.getD j 0) := by
  induction l generalizing j with
  | nil => simpa using hg.symm
  | cons a as ih =>
    cases j with
    | zero => simp
    | succ n => simpa using ih n

/-- Projection `getD` with default `[]` commutes with mapping a nil-preserving row
function over an image. -/
theorem getD_map_nil (F : List Nat → List Nat) (hF : F [] = []) (L : List (List Nat)) (i : Nat) :
    (L.map F).getD i [] = F (L.getD i []) := by
  induction L generalizing i with
  | nil => simpa using hF.symm
  | cons a as ih =>
    cases i with
    | zero => simp
    | succ n => simpa using ih n

/-- On images whose pixels are all 0 or 255, the `img_to_binary` coercion
is injective pointwise, so the number of differing positions is unchanged
by it. -/
theorem countDiff_map_toBin : ∀ (u v : List Nat),
    (∀ x ∈ u, x = 0 ∨ x = 255) → (∀ x ∈ v, x = 0 ∨ x = 255) →
    countDiff (u.map toBin) (v.map toBin) = countDiff u v := by
  intro u
  induction u with
  | nil => intro v _ _; simp [countDiff]
  | cons a as ih =>
    intro v ha hb
    cases v with
    | nil => simp [countDiff]
    | cons b bs =>
      have h1 : a = 0 ∨ a = 255 := ha a (by simp)
      have h2 : b = 0 ∨ b = 255 := hb b (by simp)
      have hrest := ih bs (fun x hx => ha x (by simp [hx])) (fun x hx => hb x (by simp [hx]))
      simp only [List.map_cons, countDiff, List.zipWith_cons_cons, List.sum_cons] at hrest ⊢
      have hhead : (if toBin a = toBin b then (0 : Nat) else 1) = if a = b then 0 else 1 := by
        rcases h1 with h1 | h1 <;> rcases h2 with h2 | h2 <;> subst h1 <;> subst h2 <;> decide
      omega

/-- Once at least one valley group exists, the `find_valleys` loop can no
longer raise: the only `IndexError` site is the append to the last group of
an empty list. -/
theorem fvGo_isOk_of_ne_nil (img : Img) : ∀ (cs : List Pt) (i last : Nat) (acc : List (List Pt)),
    acc ≠ [] → isOkE (fvGo img cs i last acc) = true := by
  intro cs
  induction cs with
  | nil => intro i last acc _; rfl
  | cons c cs ih =>
    intro i last acc h
    unfold fvGo
    by_cases hq : fvQual img c
    · rw [if_pos hq]
      by_cases hi : THRESH_CON < i - last
      · rw [if_pos hi]; exact ih _ _ _ (by simp)
      · rw [if_neg hi, if_neg (by simp [List.isEmpty_iff, h])]
        exact ih _ _ _ (by simp [fvAppendLast])
    · rw [if_neg hq]; exact ih _ _ _ h

/-- The `find_valleys` loop either succeeds or raises exactly the
`IndexError` of the empty-list append. -/
theorem fvGo_ok_or_indexError (img : Img) : ∀ (cs : List Pt) (i last : Nat)
    (acc : List (List Pt)),
    isOkE (fvGo img cs i last acc) = true ∨ fvGo img cs i last acc = .error .indexError := by
  intro cs
  induction cs with
  | nil => intro i last acc; left; rfl
  | cons c cs ih =>
    intro i last acc
    unfold fvGo
    by_cases hq : fvQual img c
    · rw [if_pos hq]
      by_cases hi : THRESH_CON < i - last
      · rw [if_pos hi]; exact ih _ _ _
      · rw [if_neg hi]
        by_cases he : acc.isEmpty
        · rw [if_pos he]; right; rfl
        · rw [if_neg he]; exact ih _ _ _
    · rw [if_neg hq]; exact ih _ _ _

/-- Started from the initial state (no groups, `last = 0`) at enumeration
offset `k`, the `find_valleys` loop raises `IndexError` exactly when the
first qualifying point sits at an absolute index of at most `THRESH_CON`. -/
theorem fvGo_error_iff (img : Img) : ∀ (cs : List Pt) (k : Nat),
    (fvGo img cs k 0 [] = .error .indexError ↔
      ∃ j, firstQualIdx img cs = some j ∧ k + j ≤ THRESH_CON) := by
  intro cs
  induction cs with
  | nil => intro k; simp [fvGo, firstQualIdx]
  | cons c cs ih =>
    intro k
    by_cases hq : fvQual img c
    · have hfq : firstQualIdx img (c :: cs) = some 0 := by
        unfold firstQualIdx; rw [if_pos hq]
      by_cases hk : THRESH_CON < k - 0
      · have hstep : fvGo img (c :: cs) k 0 [] = fvGo img cs (k + 1) k [[c]] := by
          conv_lhs => unfold fvGo
          rw [if_pos hq, if_pos hk, List.nil_append]
        have hok := fvGo_isOk_of_ne_nil img cs (k + 1) k [[c]] (by simp)
        rw [hstep, hfq]
        constructor
        · intro herr; rw [herr] at hok; exact absurd hok (by simp [isOkE])
        · rintro ⟨j, hj, hle⟩
          obtain rfl : (0 : Nat) = j := Option.some.inj hj
          omega
      · have hstep : fvGo img (c :: cs) k 0 [] = .error .indexError := by
          conv_lhs => unfold fvGo
          rw [if_pos hq, if_neg hk, if_pos (by rfl)]
        rw [hstep, hfq]
        exact ⟨fun _ => ⟨0, rfl, by omega⟩, fun _ => rfl⟩
    · have hstep : fvGo img (c :: cs) k 0 [] = fvGo img cs (k + 1) 0 [] := by
        conv_lhs => unfold fvGo
        rw [if_neg hq]
      have hfq : firstQualIdx img (c :: cs) = (firstQualIdx img cs).map (· + 1) := by
        conv_lhs => unfold firstQualIdx
        rw [if_neg hq]
      rw [hstep, ih (k + 1), hfq]
      constructor
      · rintro ⟨j, hj, hle⟩
        exact ⟨j + 1, by rw [hj]; rfl, by omega⟩
      · rintro ⟨j, hj, hle⟩
        rcases hmap : firstQualIdx img cs with _ | a
        · rw [hmap] at hj; simp at hj
        · rw [hmap] at hj
          simp only [Option.map_some'] at hj
          obtain rfl : a + 1 = j := Option.some.inj hj
          exact ⟨a, rfl, by omega⟩

end Ppscan

namespace Ppscan

/-- A small lemma used by the C5 theorem: the tangent stage of
`find_keypoints` never produces the two arity errors — it either succeeds
or raises the tangent exception. -/
theorem fkTangentStage_ne (vs : List (List Pt)) :
    fkTangentStage vs ≠ .error .exceptionTooFewValleys ∧
    fkTangentStage vs ≠ .error .exceptionNoValleys := by
  constructor <;> (simp only [fkTangentStage]; split <;> simp)

/-- C1: the translation loop of `matching` iterates over the values of
`trans_x` and reuses them as list indices, so instead of the 16 distinct
listed offsets it builds this 16-entry list with only 5 distinct shifts;
the listed offset `(1, 1)` (and likewise `(2, 2)`, `(0, 2)`, ...) is never
evaluated, although the zipped palette `trans_x x trans_y` does consist of
16 distinct offsets. -/
theorem matching_translations_slip :
    matchingTranslations = [(-2, 0), (-1, -1), (0, -1), (0, -1), (0, -1), (-1, -1), (-2, 0),
      (-2, 0), (-2, 2), (-1, -1), (1, -1), (1, -1), (1, -1), (-1, -1), (-2, 2), (-2, 2)] ∧
    matchingTranslations.dedup.length = 5 ∧
    ((1, 1) ∈ trans_x.zip trans_y) ∧ ((1, 1) ∉ matchingTranslations) ∧
    (trans_x.zip trans_y).dedup.length = 16 := by decide

/-- C2 (amended): the angle computation of `transform_to_roi` raises the
bare `ZeroDivisionError` exactly when the two keypoints share a
`y`-coordinate; there is no explicit guard producing an extraction-failure
exception. -/
theorem transform_to_roi_zerodiv_iff (p_min p_max : Pt) :
    transform_to_roi_angle p_min p_max = .error .zeroDivisionError ↔ p_min.2 = p_max.2 := by
  simp only [transform_to_roi_angle]
  split_ifs with h
  · exact ⟨fun _ => by omega, fun _ => rfl⟩
  · exact ⟨fun hc => absurd hc (by simp), fun hc => absurd (by omega : p_min.2 - p_max.2 = 0) h⟩

/-- C2 counterexample: on the vertically coincident keypoints `(0, 5)` and
`(3, 5)` the division is unguarded — the failure is the interpreter
division error, not one of the `raise Exception(...)` extraction-failure
signals of `ppscan.py`. -/
theorem transform_to_roi_unguarded_div :
    transform_to_roi_angle (0, 5) (3, 5) = .error .zeroDivisionError ∧
    PyErr.raisedByPpscan .zeroDivisionError = false := by with_unfolding_all decide

/-- C3 (amended): `calculate_hamming` performs no binary validation and
never raises for inputs of equal flattened length; it coerces every pixel
through `img_to_binary` and returns the fraction of differing coerced
positions, which for images with pixels in `{0, 255}` is exactly the
fraction of differing bits. -/
theorem calculate_hamming_never_validates :
    (∀ a b : Img, (flat a).length = (flat b).length → isOkE (calculate_hamming a b) = true) ∧
    (∀ a b : Img, (∀ x ∈ flat a, x = 0 ∨ x = 255) → (∀ x ∈ flat b, x = 0 ∨ x = 255) →
      (flat a).length = (flat b).length →
      calculate_hamming a b = .ok (diffFrac (flat a) (flat b))) := by
  constructor
  · intro a b h
    simp only [calculate_hamming]
    rw [if_pos (by simpa using h)]
    rfl
  · intro a b ha hb h
    simp only [calculate_hamming]
    rw [if_pos (by simpa using h)]
    unfold diffFrac
    rw [countDiff_map_toBin _ _ ha hb, List.length_map]

/-- C3 witness: two concrete binary `{0, 255}` images of equal length give
the differing-bit fraction `1/2` without raising. -/
theorem calculate_hamming_never_validates_w :
    calculate_hamming [[0, 255]] [[255, 255]] = .ok (1/2) := by
  have h := calculate_hamming_never_validates.2 [[0, 255]] [[255, 255]]
    (by decide) (by decide) (by decide)
  rw [h]; with_unfolding_all decide

/-- C3 counterexample: `calculate_hamming` does not fail on non-binary
input (the claim says it must), and on the genuinely `{0, 1}`-binary
inputs `[0]` and `[1]` — which differ in their only bit — it returns `0`
rather than the differing-bit fraction, because `img_to_binary` maps both
0 and 1 to 1. -/
theorem calculate_hamming_accepts_nonbinary :
    isBinary01 [[5]] = false ∧ calculate_hamming [[5]] [[7]] = .ok 0 ∧
    countDiff (flat [[0]]) (flat [[1]]) = 1 ∧ calculate_hamming [[0]] [[1]] = .ok 0 := by
  with_unfolding_all decide

/-- C4 (amended): the binarizer output holds only the values 0 and 255,
and a pixel is 255 exactly when the blurred pixel exceeds
`THRESH_FACTOR * mean(img)` computed over the ORIGINAL input image. -/
theorem extract_roi_binarize_original_mean :
    (∀ img : Img, ((flat (extract_roi_binarize img)).all (fun v => v = 0 || v = 255)) = true) ∧
    (∀ (img : Img) (i j : Nat),
      ((extract_roi_binarize img).getD i []).getD j 0 =
        if ithresh img < ((gaussianBlur7 img).getD i []).getD j 0 then 255 else 0) := by
  constructor
  · intro img
    rw [List.all_eq_true]
    intro v hv
    simp only [flat, extract_roi_binarize, List.mem_flatten, List.mem_map] at hv
    obtain ⟨row, ⟨r0, hr0, rfl⟩, hv⟩ := hv
    obtain ⟨x, hx, rfl⟩ := List.mem_map.mp hv
    by_cases hc : ithresh img < x <;> simp [hc]
  · intro img i j
    simp only [extract_roi_binarize]
    rw [getD_map_nil _ rfl, getD_map_zero _ (by simp)]

/-- C4 counterexample: on the concrete image `imgC4` the source threshold
(half the mean of the original image, floored to 14) and the threshold the
spec words (half the mean of the blurred image, floored to 10) classify
several blurred pixels differently; pixel `(0, 6)` (blurred value 11) is
0 under the source and 255 under the spec reading. -/
theorem extract_roi_binarize_not_blurred_mean :
    extract_roi_binarize imgC4 ≠ binarizeBlurredMean imgC4 ∧
    ((extract_roi_binarize imgC4).getD 0 []).getD 6 0 = 0 ∧
    ((binarizeBlurredMean imgC4).getD 0 []).getD 6 0 = 255 := by
  set_option maxRecDepth 4000 in with_unfolding_all decide

/-- C5 (amended): `find_keypoints` raises its arity failure exactly when
given fewer than 2 valleys — counting single-point ones — and after
dropping single-point valleys raises the no-valleys failure exactly when
none remain; with one remaining multi-point valley it proceeds to the
tangent search (with that valley as both curves) instead of failing. -/
theorem find_keypoints_error_conditions (vs : List (List Pt)) :
    (find_keypoints vs = .error .exceptionTooFewValleys ↔ vs.length < 2) ∧
    (find_keypoints vs = .error .exceptionNoValleys ↔
      (2 ≤ vs.length ∧ vs.filter (fun v => 1 < v.length) = [])) := by
  unfold find_keypoints
  by_cases h1 : vs.length < 2
  · rw [if_pos h1]
    refine ⟨⟨fun _ => h1, fun _ => rfl⟩, ⟨fun h => absurd h (by simp), fun hc => ?_⟩⟩
    omega
  · rw [if_neg h1]
    by_cases h2 : (vs.filter (fun v => 1 < v.length)).length = 0
    · rw [if_pos h2]
      refine ⟨⟨fun h => absurd h (by simp), fun hc => absurd hc h1⟩,
        ⟨fun _ => ⟨by omega, List.length_eq_zero.mp h2⟩, fun _ => rfl⟩⟩
    · rw [if_neg h2]
      obtain ⟨ha, hb⟩ := fkTangentStage_ne (vs.filter (fun v => 1 < v.length))
      refine ⟨⟨fun h => absurd h ha, fun hc => absurd hc h1⟩,
        ⟨fun h => absurd h hb, fun hc => absurd ?_ h2⟩⟩
      rw [hc.2]; rfl

/-- C5 counterexample: given one three-point valley and one single-point
valley, the raw count is 2 (the first check passes) but only ONE usable
multi-point valley remains; `find_keypoints` does not fail — it runs the
tangent search with the same interpolated valley as both curves and
returns its endpoints. -/
theorem find_keypoints_single_valley_proceeds :
    (([[(10, 2), (2, 11), (10, 20)], [(50, 1)]] : List (List Pt)).filter
      (fun v => 1 < v.length)).length = 1 ∧
    find_keypoints [[(10, 2), (2, 11), (10, 20)], [(50, 1)]] = .ok ((10, 2), (10, 20)) := by
  with_unfolding_all decide

/-- C6: with `n = 32` the curvature test samples 36 neighbours, not 32
(`stepsize = int(360/32) = 11` gives 9 angles per quadrant), and on an
all-inside interior point it returns `36/32 = 9/8`, strictly greater
than 1. -/
theorem neighbourhood_curvature_oversamples :
    (ncNeighvals (15, 15) img31 32 10).length = 36 ∧
    neighbourhood_curvature (15, 15) img31 32 10 255 = 9/8 ∧
    (1 : Rat) < 9/8 := by with_unfolding_all decide

/-- C7: a merged Gabor response pixel exactly equal to
`GABOR_THRESHOLD = 150` is left unchanged by the two masked assignments
(only strict inequalities are remapped), so the output of
`apply_gabor_filters` is not binary. -/
theorem apply_gabor_filters_threshold_gap :
    apply_gabor_filters [[150]] [[[150]]] = [[150]] ∧
    ¬((150 : Nat) = 0 ∨ (150 : Nat) = 255) := by decide

/-- C8 (amended): for every radius of at least 1, the border rule of the
curvature test fires exactly on the points strictly within `r` pixels of
an image border, and whenever it fires the returned curvature is exactly
0; for radius 0 it additionally fires on the whole lines `x = 0` and
`y = 0`. -/
theorem nc_border_rule (img : Img) (p : Pt) (r : Int) :
    (1 ≤ r → (ncOnBorder p img r = true ↔ withinBorderOf (shape1 img) (shape0 img) p r)) ∧
    (∀ (n : Int) (inside : Nat), ncOnBorder p img r = true →
      neighbourhood_curvature p img n r inside = 0) := by
  constructor
  · intro hr
    unfold ncOnBorder withinBorderOf
    simp only [Bool.or_eq_true, decide_eq_true_eq]
    omega
  · intro n inside h
    unfold neighbourhood_curvature
    rw [if_pos h]

/-- C8 witness: point `(0, 5)` of a 10 x 10 image with radius 1 is within
1 pixel of the left border; the rule fires and the curvature is 0. -/
theorem nc_border_rule_w :
    ncOnBorder (0, 5) img10 1 = true ∧ neighbourhood_curvature (0, 5) img10 32 1 255 = 0 := by
  refine ⟨((nc_border_rule img10 (0, 5) 1).1 (by decide)).mpr (by decide), ?_⟩
  exact (nc_border_rule img10 (0, 5) 1).2 32 255 (by decide)

/-- C8 counterexample: with radius 0 the border rule fires at `(0, 5)` of
a 10 x 10 all-255 image — a point not within 0 pixels of any border — and
forces the result to 0 although the sampling branch would return `9/8`. -/
theorem nc_border_rule_fires_at_r0 :
    ncOnBorder (0, 5) img10 0 = true ∧ ¬withinBorderOf 10 10 (0, 5) 0 ∧
    neighbourhood_curvature (0, 5) img10 32 0 255 = 0 ∧
    ncInner (0, 5) img10 32 0 255 = 9/8 := by with_unfolding_all decide

/-- C9: an error inside the per-shift comparison of `translate_image` is
absorbed into the worst-case distance 1.0 and never propagates, and for
inputs of equal flattened length `matching` always returns a numeric
score. -/
theorem matching_absorbs_shift_errors :
    (∀ (q t : Img) (sh : Int × Int) (e : PyErr),
      calculate_hamming (crop2 (warpTranslate q sh.1 sh.2)) (crop2 t) = .error e →
      translate_image q t sh = 1) ∧
    (∀ q t : Img, (flat q).length = (flat t).length → isOkE (matching q t) = true) := by
  constructor
  · intro q t sh e h
    unfold translate_image
    rw [h]
  · intro q t h
    have hok : calculate_hamming q t =
        .ok (diffFrac ((flat q).map toBin) ((flat t).map toBin)) := by
      simp only [calculate_hamming]
      rw [if_pos (by simpa using h)]
    unfold matching
    rw [hok]
    rfl

/-- C9 witness: a 2 x 2 query against a 5 x 5 template makes the cropped
comparison raise (mismatched lengths), and `translate_image` returns 1;
`matching` on two equal 1 x 1 images returns a score. -/
theorem matching_absorbs_shift_errors_w :
    translate_image [[0, 0], [0, 0]] img5z (0, 0) = 1 ∧ isOkE (matching [[1]] [[1]]) = true :=
  ⟨matching_absorbs_shift_errors.1 [[0, 0], [0, 0]] img5z (0, 0) .valueError
      (by with_unfolding_all decide),
   matching_absorbs_shift_errors.2 [[1]] [[1]] (by decide)⟩

/-- C10: `find_valleys` raises the uncaught `IndexError` of the
`valleys[-1]` append exactly when the first contour point passing the
curvature-and-brightness test has index at most `THRESH_CON = 15`, and
terminates normally exactly otherwise. -/
theorem find_valleys_first_qualifier (img : Img) (contour : List Pt) :
    (find_valleys img contour = .error .indexError ↔
      ∃ i, firstQualIdx img contour = some i ∧ i ≤ THRESH_CON) ∧
    (isOkE (find_valleys img contour) = true ↔
      ¬∃ i, firstQualIdx img contour = some i ∧ i ≤ THRESH_CON) := by
  have h1 := fvGo_error_iff img contour 0
  have h2 := fvGo_ok_or_indexError img contour 0 0 []
  unfold find_valleys
  constructor
  · rw [h1]
    exact ⟨fun ⟨j, hj, hle⟩ => ⟨j, hj, by omega⟩, fun ⟨j, hj, hle⟩ => ⟨j, hj, by omega⟩⟩
  · constructor
    · intro hok hex
      obtain ⟨i, hi, hle⟩ := hex
      have herr : fvGo img contour 0 0 [] = .error .indexError := h1.mpr ⟨i, hi, by omega⟩
      rw [herr] at hok
      exact absurd hok (by simp [isOkE])
    · intro hnex
      rcases h2 with hok | herr
      · exact hok
      · exfalso
        obtain ⟨j, hj, hle⟩ := h1.mp herr
        exact hnex ⟨j, hj, by omega⟩

end Ppscan
